import Mathlib

/-!
Verification development for the SysML Monaco editor transport bridge.

The embedding models three parts of the program:

1. the LSP frame codec of the WebSocket proxy (`lsp-ws-proxy.js`):
   outbound framing with a `Content-Length` header, and the inbound
   decode loop that accumulates `data.toString()` chunks in a JavaScript
   string buffer and repeatedly extracts header + body.  JavaScript
   strings are modelled as lists of UTF-16 code units; the byte stream
   feeding `toString` is modelled as lists of bytes together with a
   WHATWG-style UTF-8 decoder that substitutes U+FFFD for errors.

2. the `SimpleLSPClient` session logic (`lsp-client.ts`): request id
   allocation, the pending-request map, response correlation, timeout
   firing, the connect/disconnect lifecycle and the `initialize`
   handshake.  Promise settlements are recorded in an explicit log so
   that at-most-once settlement is provable.

3. the diagnostics aggregation of the editor component
   (`sysml-editor.tsx`): the `setCurrentErrors` updater that replaces
   the stored errors of one URI wholesale and keeps the others.
-/

/-! ## UTF-8 / UTF-16 modelling (Buffer.toString, Buffer.byteLength) -/

/-- Is `b` a UTF-8 continuation byte (0x80-0xBF)? -/
def isCont (b : Nat) : Bool := decide (128 ≤ b) && decide (b ≤ 191)

/-- WHATWG-style UTF-8 decoding with U+FFFD substitution, as performed by
Node's `Buffer.toString("utf8")`.  Fuelled so that it is structurally
recursive; `fuel = length + 1` always suffices since at least one byte is
consumed per step. -/
def utf8DecRepl : Nat → List Nat → List Nat
  | 0, _ => []
  | _ + 1, [] => []
  | fuel + 1, b :: rest =>
    if decide (b < 128) then b :: utf8DecRepl fuel rest
    else if decide (194 ≤ b) && decide (b ≤ 223) then
      match rest with
      | [] => [65533]
      | c :: r2 =>
        if isCont c then ((b - 192) * 64 + (c - 128)) :: utf8DecRepl fuel r2
        else 65533 :: utf8DecRepl fuel rest
    else if decide (224 ≤ b) && decide (b ≤ 239) then
      match rest with
      | [] => [65533]
      | c :: r2 =>
        let lo := if b == 224 then 160 else 128
        let hi := if b == 237 then 159 else 191
        if decide (lo ≤ c) && decide (c ≤ hi) then
          match r2 with
          | [] => [65533]
          | d :: r3 =>
            if isCont d then
              ((b - 224) * 4096 + (c - 128) * 64 + (d - 128)) :: utf8DecRepl fuel r3
            else 65533 :: utf8DecRepl fuel r2
        else 65533 :: utf8DecRepl fuel rest
    else if decide (240 ≤ b) && decide (b ≤ 244) then
      match rest with
      | [] => [65533]
      | c :: r2 =>
        let lo := if b == 240 then 144 else 128
        let hi := if b == 244 then 143 else 191
        if decide (lo ≤ c) && decide (c ≤ hi) then
          match r2 with
          | [] => [65533]
          | d :: r3 =>
            if isCont d then
              match r3 with
              | [] => [65533]
              | e :: r4 =>
                if isCont e then
                  ((b - 240) * 262144 + (c - 128) * 4096 + (d - 128) * 64 + (e - 128)) ::
                    utf8DecRepl fuel r4
                else 65533 :: utf8DecRepl fuel r3
            else 65533 :: utf8DecRepl fuel r2
        else 65533 :: utf8DecRepl fuel rest
    else 65533 :: utf8DecRepl fuel rest

/-- One code point as UTF-16 code units (surrogate pair above U+FFFF). -/
def utf16OfCp (c : Nat) : List Nat :=
  if decide (c < 65536) then [c]
  else [55296 + (c - 65536) / 1024, 56320 + (c - 65536) % 1024]

/-- Concatenated map over a list of naturals. -/
def concatMap (f : Nat → List Nat) : List Nat → List Nat
  | [] => []
  | c :: rest => f c ++ concatMap f rest

/-- UTF-16 code units of a JavaScript string obtained from a list of code
points. -/
def utf16OfCps (cps : List Nat) : List Nat := concatMap utf16OfCp cps

/-- Model of `data.toString("utf8")`: decode the byte chunk to code points
(with replacement) and view the result as UTF-16 code units. -/
def toStrModel (bytes : List Nat) : List Nat :=
  utf16OfCps (utf8DecRepl (bytes.length + 1) bytes)

/-- Code points of a JavaScript string given by its UTF-16 code units;
surrogate pairs combine, lone surrogates become U+FFFD (as in
`Buffer.byteLength` / `Buffer.write`). -/
def unitsToCps : Nat → List Nat → List Nat
  | 0, _ => []
  | _ + 1, [] => []
  | fuel + 1, u :: rest =>
    if decide (55296 ≤ u) && decide (u ≤ 56319) then
      match rest with
      | [] => [65533]
      | v :: r2 =>
        if decide (56320 ≤ v) && decide (v ≤ 57343) then
          (65536 + (u - 55296) * 1024 + (v - 56320)) :: unitsToCps fuel r2
        else 65533 :: unitsToCps fuel rest
    else if decide (56320 ≤ u) && decide (u ≤ 57343) then
      65533 :: unitsToCps fuel rest
    else u :: unitsToCps fuel rest

/-- UTF-8 bytes of one code point. -/
def utf8EncodeCp (c : Nat) : List Nat :=
  if decide (c < 128) then [c]
  else if decide (c < 2048) then [192 + c / 64, 128 + c % 64]
  else if decide (c < 65536) then [224 + c / 4096, 128 + (c / 64) % 64, 128 + c % 64]
  else [240 + c / 262144, 128 + (c / 4096) % 64, 128 + (c / 64) % 64, 128 + c % 64]

/-- Model of writing a JavaScript string as UTF-8 bytes
(`ls.stdin.write(lspMessage)`). -/
def utf8EncodeStr (units : List Nat) : List Nat :=
  concatMap utf8EncodeCp (unitsToCps (units.length + 1) units)

/-- Model of `Buffer.byteLength(messageStr, "utf8")`. -/
def utf8Len (units : List Nat) : Nat := (utf8EncodeStr units).length

/-! ## JSON syntax acceptance (JSON.parse succeeds or throws) -/

/-- JSON insignificant whitespace. -/
def jsonWs (c : Nat) : Bool := c == 32 || c == 9 || c == 10 || c == 13

/-- ASCII decimal digit? -/
def isDigitB (d : Nat) : Bool := decide (48 ≤ d) && decide (d ≤ 57)

/-- ASCII hexadecimal digit? -/
def isHexB (d : Nat) : Bool :=
  isDigitB d || (decide (65 ≤ d) && decide (d ≤ 70)) || (decide (97 ≤ d) && decide (d ≤ 102))

/-- Do the elements of `pat` lead the list `s`?  (Model of a literal
prefix match.) -/
def leadEq : List Nat → List Nat → Bool
  | [], _ => true
  | _ :: _, [] => false
  | a :: as, b :: bs => a == b && leadEq as bs

/-- Accept the remainder of a JSON string after its opening quote. -/
def strChk : List Nat → Option (List Nat)
  | [] => none
  | c :: rest =>
    if c == 34 then some rest
    else if c == 92 then
      match rest with
      | [] => none
      | e :: r2 =>
        if e == 34 || e == 92 || e == 47 || e == 98 || e == 102 || e == 110 ||
            e == 114 || e == 116 then
          strChk r2
        else if e == 117 then
          match r2 with
          | h1 :: h2 :: h3 :: h4 :: r3 =>
            if isHexB h1 && isHexB h2 && isHexB h3 && isHexB h4 then strChk r3 else none
          | _ => none
        else none
    else if decide (c < 32) then none
    else strChk rest

/-- Accept one or more digits, returning the rest. -/
def digitsChk (s : List Nat) : Option (List Nat) :=
  match s with
  | d :: r => if isDigitB d then some (r.dropWhile isDigitB) else none
  | [] => none

/-- Accept an optional JSON exponent part. -/
def expChk (s : List Nat) : Option (List Nat) :=
  match s with
  | c :: r =>
    if c == 101 || c == 69 then
      match r with
      | s2 :: r2 => if s2 == 43 || s2 == 45 then digitsChk r2 else digitsChk r
      | [] => none
    else some s
  | [] => some []

/-- Accept an optional JSON fraction part followed by an optional exponent. -/
def fracChk (s : List Nat) : Option (List Nat) :=
  match s with
  | 46 :: r =>
    match digitsChk r with
    | some r2 => expChk r2
    | none => none
  | _ => expChk s

/-- Accept a JSON number. -/
def numChk (s : List Nat) : Option (List Nat) :=
  let s1 := match s with | 45 :: r => r | _ => s
  match s1 with
  | c :: r =>
    if c == 48 then fracChk r
    else if isDigitB c then fracChk (r.dropWhile isDigitB)
    else none
  | [] => none

/-- Accept a literal keyword tail. -/
def litChk (lit : List Nat) (s : List Nat) : Option (List Nat) :=
  if leadEq lit s then some (s.drop lit.length) else none

/-- Mode of the JSON acceptor: a value, object members, array elements. -/
inductive JM
  | val
  | mem
  | elt

/-- Fuelled JSON acceptor over UTF-16 code units, mirroring the grammar
accepted by `JSON.parse`.  Returns the remaining input on success. -/
def jsonChk : Nat → JM → List Nat → Option (List Nat)
  | 0, _, _ => none
  | fuel + 1, JM.val, s =>
    match s with
    | [] => none
    | c :: rest =>
      if c == 34 then strChk rest
      else if c == 123 then
        match rest.dropWhile jsonWs with
        | 125 :: r => some r
        | s1 => jsonChk fuel JM.mem s1
      else if c == 91 then
        match rest.dropWhile jsonWs with
        | 93 :: r => some r
        | s1 => jsonChk fuel JM.elt s1
      else if c == 116 then litChk [114, 117, 101] rest
      else if c == 102 then litChk [97, 108, 115, 101] rest
      else if c == 110 then litChk [117, 108, 108] rest
      else numChk (c :: rest)
  | fuel + 1, JM.mem, s =>
    match s with
    | 34 :: rest =>
      match strChk rest with
      | none => none
      | some r1 =>
        match r1.dropWhile jsonWs with
        | 58 :: r3 =>
          match jsonChk fuel JM.val (r3.dropWhile jsonWs) with
          | none => none
          | some r4 =>
            match r4.dropWhile jsonWs with
            | 44 :: r6 => jsonChk fuel JM.mem (r6.dropWhile jsonWs)
            | 125 :: r6 => some r6
            | _ => none
        | _ => none
    | _ => none
  | fuel + 1, JM.elt, s =>
    match jsonChk fuel JM.val s with
    | none => none
    | some r1 =>
      match r1.dropWhile jsonWs with
      | 44 :: r2 => jsonChk fuel JM.elt (r2.dropWhile jsonWs)
      | 93 :: r2 => some r2
      | _ => none

/-- Does `JSON.parse` accept the string (given as UTF-16 code units)? -/
def jsonValid (s : List Nat) : Bool :=
  match jsonChk (2 * s.length + 2) JM.val (s.dropWhile jsonWs) with
  | some r => (r.dropWhile jsonWs).isEmpty
  | none => false

/-! ## The proxy's LSP frame codec (lsp-ws-proxy.js) -/

/-- The code units of the header terminator `\r\n\r\n`. -/
def crlf4 : List Nat := [13, 10, 13, 10]

/-- The code units of the literal `Content-Length: `. -/
def clLit : List Nat := [67, 111, 110, 116, 101, 110, 116, 45, 76, 101, 110, 103, 116, 104, 58, 32]

/-- Index of the first occurrence of `pat` in a list, as
`buffer.indexOf(pat)` (`none` for -1). -/
def findSeq (pat : List Nat) : List Nat → Option Nat
  | [] => if leadEq pat [] then some 0 else none
  | x :: xs => if leadEq pat (x :: xs) then some 0 else (findSeq pat xs).map (· + 1)

/-- Model of `headers.match(/Content-Length: (\d+)/)`: scan for the first
occurrence of the literal followed by at least one digit and return the
maximal digit run (the capture group). -/
def matchContentLength : List Nat → Option (List Nat)
  | [] => none
  | x :: xs =>
    if leadEq clLit (x :: xs) &&
        (match (x :: xs).drop 16 with | d :: _ => isDigitB d | [] => false) then
      some (((x :: xs).drop 16).takeWhile isDigitB)
    else matchContentLength xs

/-- Model of `parseInt` on a run of decimal digits. -/
def parseIntList (ds : List Nat) : Nat :=
  ds.foldl (fun a d => a * 10 + (d - 48)) 0

/-- Outcome of one iteration of the decode `while` loop. -/
inductive StepRes
  | stuck
  | skipHeader (rest : List Nat)
  | produce (msg : List Nat) (rest : List Nat)
deriving DecidableEq

/-- One iteration of the decode loop over the string buffer: find the
header terminator, read `Content-Length`, and either wait, discard a
malformed header block, or slice out one body. -/
def drainStep (buf : List Nat) : StepRes :=
  match findSeq crlf4 buf with
  | none => StepRes.stuck
  | some headerEnd =>
    match matchContentLength (buf.take headerEnd) with
    | none => StepRes.skipHeader (buf.drop (headerEnd + 4))
    | some digits =>
      let contentLength := parseIntList digits
      let messageEnd := headerEnd + 4 + contentLength
      if decide (buf.length < messageEnd) then StepRes.stuck
      else StepRes.produce ((buf.drop (headerEnd + 4)).take contentLength) (buf.drop messageEnd)

/-- The decode loop run to exhaustion; a body is forwarded only when
`JSON.parse` accepts it.  Fuelled structurally; the buffer strictly
shrinks every iteration, so `length + 1` fuel is always enough. -/
def drainLoop : Nat → List Nat → List (List Nat) × List Nat
  | 0, buf => ([], buf)
  | fuel + 1, buf =>
    match drainStep buf with
    | StepRes.stuck => ([], buf)
    | StepRes.skipHeader rest => drainLoop fuel rest
    | StepRes.produce msg rest =>
      let r := drainLoop fuel rest
      (if jsonValid msg then msg :: r.1 else r.1, r.2)

/-- Fully drain a string buffer: the emitted messages and the leftover. -/
def lspDecode (buf : List Nat) : List (List Nat) × List Nat :=
  drainLoop (buf.length + 1) buf

/-- Feed a sequence of `data` byte chunks through
`buffer += data.toString()` followed by the drain loop, accumulating the
forwarded messages. -/
def feedStream (chunks : List (List Nat)) : List (List Nat) × List Nat :=
  chunks.foldl
    (fun acc c =>
      let r := lspDecode (acc.2 ++ toStrModel c)
      (acc.1 ++ r.1, r.2))
    ([], [])

/-- Little-endian base-10 digits, fuelled so that it reduces in the
kernel; `fuel = n` suffices for positive `n`. -/
def natDigitsAux : Nat → Nat → List Nat
  | 0, _ => []
  | _ + 1, 0 => []
  | fuel + 1, n + 1 => (n + 1) % 10 :: natDigitsAux fuel ((n + 1) / 10)

/-- Decimal digit string of a number, as JavaScript template interpolation
renders it. -/
def natUnits (n : Nat) : List Nat :=
  if n = 0 then [48] else ((natDigitsAux n n).map (fun d => d + 48)).reverse

/-- The frame built by the proxy for one WebSocket message (as a
JavaScript string): `Content-Length: N\r\n\r\n` ++ body, where `N` is the
UTF-8 byte length of the body. -/
def encodeFrameStr (msg : List Nat) : List Nat :=
  clLit ++ natUnits (utf8Len msg) ++ crlf4 ++ msg

/-- The bytes actually written to the subordinate process's stdin. -/
def encodeFrameBytes (msg : List Nat) : List Nat :=
  utf8EncodeStr (encodeFrameStr msg)

/-- A decoder-side well-formed header for a body of `n` code units. -/
def goodHdr (n : Nat) : List Nat := clLit ++ natUnits n ++ crlf4

/-- A decoder-side well-formed frame around a body. -/
def uFrame (s : List Nat) : List Nat := goodHdr s.length ++ s

/-- The WebSocket message `{"x":"é"}`: 9 UTF-16 code units, 10 UTF-8
bytes. -/
def msgE : List Nat := [123, 34, 120, 34, 58, 34, 233, 34, 125]

/-- The wire bytes of the frame carrying `msgE`. -/
def wireE : List Nat := encodeFrameBytes msgE

/-! ## The SimpleLSPClient session model (lsp-client.ts) -/

/-- A settlement of a request's promise. -/
inductive Settle
  | resolved (result : String)
  | rejected (msg : String)
deriving DecidableEq

/-- A JSON-RPC message arriving on the WebSocket, as far as
`handleMessage` inspects it: optional `id`, optional `method`, and the
`error.message` when an `error` member is present (the `result` payload
is kept opaque as a string). -/
structure InMsg where
  id : Option Nat
  method : Option String
  error : Option String
  result : String
deriving DecidableEq

/-- A message written to `ws.send`, as far as the claims inspect it. -/
inductive OutMsg
  | request (id : Nat) (method : String)
  | notification (method : String)
deriving DecidableEq

/-- The client state: WebSocket connectivity, the `messageId` counter,
the pending-request map (id, method), the armed request timers, the
`isInitialized` flag, plus two observation logs: the messages written to
the socket and the recorded promise settlements. -/
structure Client where
  wsConn : Bool
  messageId : Nat
  pending : List (Nat × String)
  timers : List Nat
  isInit : Bool
  sent : List OutMsg
  settled : List (Nat × Settle)
  allocated : List Nat
deriving DecidableEq

/-- The freshly constructed client. -/
def initialClient : Client :=
  { wsConn := false, messageId := 0, pending := [], timers := [], isInit := false,
    sent := [], settled := [], allocated := [] }

/-- The timeout rejection message built by the `setTimeout` callback. -/
def timeoutMsg (method : String) (id : Nat) : String :=
  "Request " ++ method ++ " (id: " ++ toString id ++ ") timed out after 30 seconds"

/-- Result of `sendRequest` as seen by its caller. -/
inductive SendRes
  | rejectedWith (msg : String)
  | pendingId (id : Nat)
deriving DecidableEq

/-- `sendRequest`: reject immediately when the socket is not open;
otherwise allocate `++messageId`, arm a 30-second timer, store the
pending entry and write the request. -/
def sendRequest (st : Client) (method : String) : Client × SendRes :=
  if st.wsConn = false then (st, SendRes.rejectedWith "WebSocket not connected")
  else
    let id := st.messageId + 1
    ({ st with
        messageId := id
        pending := st.pending ++ [(id, method)]
        timers := st.timers ++ [id]
        sent := st.sent ++ [OutMsg.request id method]
        allocated := st.allocated ++ [id] },
      SendRes.pendingId id)

/-- Settlement derived from a response: reject with the server's error
message when an `error` member is present, otherwise resolve with the
result. -/
def respOutcome (m : InMsg) : Settle :=
  match m.error with
  | some e => Settle.rejected e
  | none => Settle.resolved m.result

/-- `handleMessage`: a message whose `id` is in the pending map removes
the entry (clearing its timer through the stored wrapper) and settles its
promise; everything else leaves the client state unchanged (diagnostics
and other notifications go to external handlers). -/
def handleMessage (st : Client) (m : InMsg) : Client :=
  match m.id with
  | some i =>
    match st.pending.lookup i with
    | some _ =>
      { st with
          pending := st.pending.filter (fun p => p.1 != i)
          timers := st.timers.filter (fun t => t != i)
          settled := st.settled ++ [(i, respOutcome m)] }
    | none => st
  | none => st

/-- The `setTimeout` callback for request `i` firing: if the id is still
pending, remove it and reject with the timeout error; otherwise do
nothing. -/
def fireTimeout (st : Client) (i : Nat) : Client :=
  match st.pending.lookup i with
  | some method =>
    { st with
        pending := st.pending.filter (fun p => p.1 != i)
        timers := st.timers.filter (fun t => t != i)
        settled := st.settled ++ [(i, Settle.rejected (timeoutMsg method i))] }
  | none => { st with timers := st.timers.filter (fun t => t != i) }

/-- `sendNotification`: fire-and-forget, only when the socket is open. -/
def sendNotification (st : Client) (method : String) : Client :=
  if st.wsConn = false then st
  else { st with sent := st.sent ++ [OutMsg.notification method] }

/-- `disconnect()`: close and null the socket, clear the pending map
(without settling anything) and reset the handshake flag.  The armed
timers are not cleared. -/
def disconnect (st : Client) : Client :=
  { st with wsConn := false, pending := [], isInit := false }

/-- `ws.onclose`: the socket is no longer open and the handshake flag is
reset; the pending map is left untouched. -/
def onCloseEv (st : Client) : Client :=
  { st with wsConn := false, isInit := false }

/-- The `initialize()` handshake: a no-op once completed; otherwise send
the `initialize` request, consume its response (the `await`), send the
`initialized` notification and set the flag. -/
def initHandshake (st : Client) (res : String) : Client :=
  if st.isInit then st
  else
    let sr := sendRequest st "initialize"
    match sr.2 with
    | SendRes.rejectedWith _ => sr.1
    | SendRes.pendingId i =>
      let st2 := handleMessage sr.1 { id := some i, method := none, error := none, result := res }
      let st3 := sendNotification st2 "initialized"
      { st3 with isInit := true }

/-- Session events driving the client state machine. -/
inductive Ev
  | sockOpen
  | sockClose
  | disc
  | send (method : String)
  | notify (method : String)
  | recv (m : InMsg)
  | fire (i : Nat)
  | handshake (res : String)
deriving DecidableEq

/-- One event step. -/
def step (st : Client) : Ev → Client
  | Ev.sockOpen => { st with wsConn := true }
  | Ev.sockClose => onCloseEv st
  | Ev.disc => disconnect st
  | Ev.send m => (sendRequest st m).1
  | Ev.notify m => sendNotification st m
  | Ev.recv m => handleMessage st m
  | Ev.fire i => fireTimeout st i
  | Ev.handshake r => initHandshake st r

/-- Run a list of events from the freshly constructed client. -/
def runEvents (evs : List Ev) : Client :=
  evs.foldl step initialClient

/-- The recorded settlements of request `i`, in order. -/
def settledFor (st : Client) (i : Nat) : List Settle :=
  (st.settled.filter (fun q => q.1 == i)).map Prod.snd

/-- Session invariant: pending keys are distinct, no pending request is
already settled, every pending or settled id is positive and bounded by
the counter, and the allocation log is exactly `1..messageId`. -/
structure ClientInv (st : Client) : Prop where
  pendNodup : (st.pending.map Prod.fst).Nodup
  disjoint : ∀ i ∈ st.pending.map Prod.fst, i ∉ st.settled.map Prod.fst
  pendLe : ∀ p ∈ st.pending, p.1 ≤ st.messageId ∧ 0 < p.1
  settLe : ∀ q ∈ st.settled, q.1 ≤ st.messageId
  alloc : st.allocated = List.range' 1 st.messageId

/-! ## Diagnostics aggregation (sysml-editor.tsx) -/

/-- An LSP range as published by the server (0-indexed). -/
structure DRange where
  startLine : Nat
  startCharacter : Nat
  endLine : Nat
  endCharacter : Nat
deriving DecidableEq

/-- An LSP diagnostic as inspected by the handler (the optional code is
kept already stringified). -/
structure Diagnostic where
  range : DRange
  severity : Nat
  message : String
  code : Option String
deriving DecidableEq

/-- An entry of the `currentErrors` problems list. -/
structure ErrorItem where
  line : Nat
  column : Nat
  message : String
  severity : String
  code : Option String
  uri : String
deriving DecidableEq

/-- The per-diagnostic conversion performed inside `setCurrentErrors`. -/
def toErrorItem (uri : String) (d : Diagnostic) : ErrorItem :=
  { line := d.range.startLine + 1
    column := d.range.startCharacter + 1
    message := d.message
    severity :=
      if d.severity = 1 then "error"
      else if d.severity = 2 then "warning"
      else if d.severity = 3 then "info"
      else "hint"
    code := d.code
    uri := uri }

/-- One `publishDiagnostics` delivery: drop the previous entries of that
URI and append the freshly converted ones. -/
def publishStep (st : List ErrorItem) (p : String × List Diagnostic) : List ErrorItem :=
  st.filter (fun e => e.uri != p.1) ++ p.2.map (toErrorItem p.1)

/-- The `currentErrors` list after a sequence of publishes, starting
empty. -/
def publishRun (ps : List (String × List Diagnostic)) : List ErrorItem :=
  ps.foldl publishStep []

/-- The converted entries of the most recent publish for `u` (empty when
`u` was never published). -/
def lastPublished (u : String) (ps : List (String × List Diagnostic)) : List ErrorItem :=
  ps.foldl (fun acc p => if p.1 = u then p.2.map (toErrorItem u) else acc) []


/-! ## Decoder lemmas -/

theorem leadEq_append (p q : List Nat) : leadEq p (p ++ q) = true := by
  induction p with
  | nil => rfl
  | cons a as ih => simp [leadEq, ih]

theorem leadEq_length_le : ∀ (p s : List Nat), leadEq p s = true → p.length ≤ s.length := by
  intro p
  induction p with
  | nil => intro s _; simp
  | cons a as ih =>
    intro s h
    cases s with
    | nil => simp [leadEq] at h
    | cons b bs =>
      simp only [leadEq, Bool.and_eq_true] at h
      have := ih bs h.2
      simp only [List.length_cons]
      omega

theorem findSeq_cons (pat : List Nat) (x : Nat) (xs : List Nat) :
    findSeq pat (x :: xs) =
      if leadEq pat (x :: xs) = true then some 0 else (findSeq pat xs).map (· + 1) := rfl

theorem findSeq_bound : ∀ (s : List Nat) (pat : List Nat) (i : Nat),
    findSeq pat s = some i → i + pat.length ≤ s.length := by
  intro s
  induction s with
  | nil =>
    intro pat i h
    simp only [findSeq] at h
    by_cases hl : leadEq pat [] = true
    · rw [if_pos hl] at h
      cases h
      simpa using leadEq_length_le pat [] hl
    · rw [if_neg hl] at h
      cases h
  | cons x xs ih =>
    intro pat i h
    rw [findSeq_cons] at h
    by_cases hl : leadEq pat (x :: xs) = true
    · rw [if_pos hl] at h
      cases h
      simpa using leadEq_length_le pat (x :: xs) hl
    · rw [if_neg hl] at h
      rcases Option.map_eq_some'.mp h with ⟨j, hj, rfl⟩
      have := ih pat j hj
      simp only [List.length_cons]
      omega

theorem findSeq_after_clean : ∀ (a b : List Nat), (∀ x ∈ a, x ≠ 13) →
    findSeq crlf4 (a ++ 13 :: 10 :: 13 :: 10 :: b) = some a.length := by
  intro a
  induction a with
  | nil =>
    intro b _
    simp [findSeq_cons, crlf4, leadEq]
  | cons c a' ih =>
    intro b h13
    have hc : c ≠ 13 := h13 c (List.mem_cons_self c a')
    have hbe : (13 == c) = false := beq_eq_false_iff_ne.mpr (Ne.symm hc)
    rw [show ((c :: a') ++ 13 :: 10 :: 13 :: 10 :: b) = c :: (a' ++ 13 :: 10 :: 13 :: 10 :: b)
      from rfl, findSeq_cons]
    have hcond : leadEq crlf4 (c :: (a' ++ 13 :: 10 :: 13 :: 10 :: b)) = false := by
      simp [crlf4, leadEq, hbe]
    rw [hcond, ih b (fun x hx => h13 x (List.mem_cons_of_mem c hx))]
    simp

theorem clLit_clean : ∀ x ∈ clLit, x ≠ 13 := by decide

theorem natDigitsAux_eq : ∀ (fuel n : Nat), n ≤ fuel → natDigitsAux fuel n = Nat.digits 10 n := by
  intro fuel
  induction fuel with
  | zero =>
    intro n h
    have : n = 0 := by omega
    subst this
    simp [natDigitsAux]
  | succ f ih =>
    intro n h
    match n with
    | 0 => simp [natDigitsAux]
    | m + 1 =>
      rw [natDigitsAux]
      have hdiv : (m + 1) / 10 ≤ f := by
        have := Nat.div_lt_self (Nat.succ_pos m) (by norm_num : 1 < 10)
        omega
      rw [ih ((m + 1) / 10) hdiv]
      rw [Nat.digits_def' (by norm_num : (1 : ℕ) < 10) (Nat.succ_pos m)]

theorem natUnits_digit : ∀ (n : Nat), ∀ x ∈ natUnits n, isDigitB x = true ∧ x ≠ 13 := by
  intro n x hx
  by_cases h0 : n = 0
  · subst h0
    simp [natUnits] at hx
    subst hx
    exact ⟨by decide, by decide⟩
  · simp only [natUnits, if_neg h0, natDigitsAux_eq n n le_rfl, List.mem_reverse,
      List.mem_map] at hx
    rcases hx with ⟨d, hd, rfl⟩
    have : d < 10 := Nat.digits_lt_base (by norm_num) hd
    refine ⟨?_, by omega⟩
    simp only [isDigitB, Bool.and_eq_true, decide_eq_true_iff]
    omega

theorem natUnits_ne_nil (n : Nat) : natUnits n ≠ [] := by
  by_cases h0 : n = 0
  · subst h0; simp [natUnits]
  · simp only [natUnits, if_neg h0, natDigitsAux_eq n n le_rfl]
    simp [Nat.digits_ne_nil_iff_ne_zero.mpr h0]

theorem foldl_digits : ∀ (L : List Nat) (a : Nat),
    ((L.map (fun d => d + 48)).reverse).foldl (fun a d => a * 10 + (d - 48)) a =
      a * 10 ^ L.length + Nat.ofDigits 10 L := by
  intro L
  induction L with
  | nil => intro a; simp [Nat.ofDigits_nil]
  | cons d L' ih =>
    intro a
    simp only [List.map_cons, List.reverse_cons, List.foldl_append, List.foldl_cons,
      List.foldl_nil, ih, List.length_cons, Nat.ofDigits_cons]
    have hd : d + 48 - 48 = d := by omega
    rw [hd]
    ring

theorem parseIntList_natUnits (n : Nat) : parseIntList (natUnits n) = n := by
  by_cases h0 : n = 0
  · subst h0; decide
  · simp only [natUnits, if_neg h0, natDigitsAux_eq n n le_rfl, parseIntList]
    rw [foldl_digits (Nat.digits 10 n) 0]
    simp [Nat.ofDigits_digits]

theorem mcl_cons (x : Nat) (xs : List Nat) :
    matchContentLength (x :: xs) =
      if (leadEq clLit (x :: xs) &&
          (match (x :: xs).drop 16 with | d :: _ => isDigitB d | [] => false)) = true then
        some (((x :: xs).drop 16).takeWhile isDigitB)
      else matchContentLength xs := rfl

theorem mcl_header (ds : List Nat) (hne : ds ≠ []) (hdig : ∀ d ∈ ds, isDigitB d = true) :
    matchContentLength (clLit ++ ds) = some ds := by
  cases ds with
  | nil => exact absurd rfl hne
  | cons d ds' =>
    have hd : isDigitB d = true := hdig d (List.mem_cons_self d ds')
    have hlead : leadEq clLit
        (67 :: ([111, 110, 116, 101, 110, 116, 45, 76, 101, 110, 103, 116, 104, 58, 32] ++
          d :: ds')) = true := leadEq_append clLit (d :: ds')
    have hdrop : (67 :: ([111, 110, 116, 101, 110, 116, 45, 76, 101, 110, 103, 116, 104, 58,
        32] ++ d :: ds')).drop 16 = d :: ds' := List.drop_left clLit (d :: ds')
    show matchContentLength
        (67 :: ([111, 110, 116, 101, 110, 116, 45, 76, 101, 110, 103, 116, 104, 58, 32] ++
          d :: ds')) = some (d :: ds')
    rw [mcl_cons, hdrop, hlead]
    simp only [hd, Bool.and_true, if_true]
    rw [List.takeWhile_eq_self_iff.mpr hdig]

theorem drainStep_skip (a rest : List Nat) (h13 : ∀ x ∈ a, x ≠ 13)
    (hcl : matchContentLength a = none) :
    drainStep (a ++ 13 :: 10 :: 13 :: 10 :: rest) = StepRes.skipHeader rest := by
  have hfind := findSeq_after_clean a rest h13
  have htake : (a ++ 13 :: 10 :: 13 :: 10 :: rest).take a.length = a := List.take_left a _
  have hdrop : (a ++ 13 :: 10 :: 13 :: 10 :: rest).drop (a.length + 4) = rest := by
    have h4 : a.length + 4 = (a ++ [13, 10, 13, 10]).length := by simp
    rw [h4]
    rw [show a ++ 13 :: 10 :: 13 :: 10 :: rest = (a ++ [13, 10, 13, 10]) ++ rest by simp]
    exact List.drop_left _ _
  simp only [drainStep, hfind, htake, hcl, hdrop]

theorem drainStep_frame (body rest : List Nat) :
    drainStep (goodHdr body.length ++ body ++ rest) = StepRes.produce body rest := by
  have h13 : ∀ x ∈ clLit ++ natUnits body.length, x ≠ 13 := by
    intro x hx
    rcases List.mem_append.mp hx with h | h
    · exact clLit_clean x h
    · exact (natUnits_digit body.length x h).2
  have hshape : goodHdr body.length ++ body ++ rest =
      (clLit ++ natUnits body.length) ++ 13 :: 10 :: 13 :: 10 :: (body ++ rest) := by
    simp [goodHdr, crlf4]
  rw [hshape]
  have hfind := findSeq_after_clean (clLit ++ natUnits body.length) (body ++ rest) h13
  have htake : ((clLit ++ natUnits body.length) ++ 13 :: 10 :: 13 :: 10 :: (body ++ rest)).take
      (clLit ++ natUnits body.length).length = clLit ++ natUnits body.length :=
    List.take_left _ _
  have hmcl : matchContentLength (clLit ++ natUnits body.length) = some (natUnits body.length) :=
    mcl_header (natUnits body.length) (natUnits_ne_nil body.length)
      (fun d hd => (natUnits_digit body.length d hd).1)
  have hparse : parseIntList (natUnits body.length) = body.length :=
    parseIntList_natUnits body.length
  have hdropA : ((clLit ++ natUnits body.length) ++ 13 :: 10 :: 13 :: 10 :: (body ++ rest)).drop
      ((clLit ++ natUnits body.length).length + 4) = body ++ rest := by
    have h4 : (clLit ++ natUnits body.length).length + 4 =
        ((clLit ++ natUnits body.length) ++ [13, 10, 13, 10]).length := by simp; omega
    rw [h4]
    rw [show (clLit ++ natUnits body.length) ++ 13 :: 10 :: 13 :: 10 :: (body ++ rest) =
      ((clLit ++ natUnits body.length) ++ [13, 10, 13, 10]) ++ (body ++ rest) by simp]
    exact List.drop_left _ _
  have hdropB : ((clLit ++ natUnits body.length) ++ 13 :: 10 :: 13 :: 10 :: (body ++ rest)).drop
      ((clLit ++ natUnits body.length).length + 4 + body.length) = rest := by
    have h4 : (clLit ++ natUnits body.length).length + 4 + body.length =
        (((clLit ++ natUnits body.length) ++ [13, 10, 13, 10]) ++ body).length := by
      simp; omega
    rw [h4]
    rw [show (clLit ++ natUnits body.length) ++ 13 :: 10 :: 13 :: 10 :: (body ++ rest) =
      (((clLit ++ natUnits body.length) ++ [13, 10, 13, 10]) ++ body) ++ rest by simp]
    exact List.drop_left _ _
  have hguard : ¬ (((clLit ++ natUnits body.length) ++
      13 :: 10 :: 13 :: 10 :: (body ++ rest)).length <
      (clLit ++ natUnits body.length).length + 4 + body.length) := by
    simp only [List.length_append, List.length_cons]
    omega
  simp only [drainStep, hfind, htake, hmcl, hparse, hdropA, hdropB, decide_eq_true_eq,
    if_neg hguard, List.take_left]

theorem drainStep_skip_len (buf rest : List Nat) (h : drainStep buf = StepRes.skipHeader rest) :
    rest.length < buf.length := by
  cases hf : findSeq crlf4 buf with
  | none => simp only [drainStep, hf] at h; simp at h
  | some he =>
    have hb : he + 4 ≤ buf.length := by
      have := findSeq_bound buf crlf4 he hf
      simpa [crlf4] using this
    cases hm : matchContentLength (buf.take he) with
    | none =>
      simp only [drainStep, hf, hm, StepRes.skipHeader.injEq] at h
      subst h
      simp only [List.length_drop]
      omega
    | some digits =>
      simp only [drainStep, hf, hm] at h
      by_cases hg : buf.length < he + 4 + parseIntList digits
      · simp [hg] at h
      · simp [hg] at h

theorem drainStep_produce_len (buf msg rest : List Nat)
    (h : drainStep buf = StepRes.produce msg rest) : rest.length < buf.length := by
  cases hf : findSeq crlf4 buf with
  | none => simp only [drainStep, hf] at h; simp at h
  | some he =>
    have hb : he + 4 ≤ buf.length := by
      have := findSeq_bound buf crlf4 he hf
      simpa [crlf4] using this
    cases hm : matchContentLength (buf.take he) with
    | none => simp only [drainStep, hf, hm] at h; simp at h
    | some digits =>
      simp only [drainStep, hf, hm] at h
      by_cases hg : buf.length < he + 4 + parseIntList digits
      · simp [hg] at h
      · simp only [decide_eq_true_eq, if_neg hg, StepRes.produce.injEq] at h
        rcases h with ⟨-, rfl⟩
        simp only [List.length_drop]
        omega

theorem drainLoop_fuel : ∀ (f : Nat) (buf : List Nat), buf.length < f →
    drainLoop f buf = drainLoop (buf.length + 1) buf := by
  intro f
  induction f using Nat.strong_induction_on with
  | _ f ih =>
    intro buf h
    obtain ⟨f', rfl⟩ : ∃ f', f = f' + 1 := ⟨f - 1, by omega⟩
    simp only [drainLoop]
    cases hs : drainStep buf with
    | stuck => rfl
    | skipHeader rest =>
      have hr := drainStep_skip_len buf rest hs
      show drainLoop f' rest = drainLoop buf.length rest
      rw [ih f' (by omega) rest (by omega), ih buf.length (by omega) rest hr]
    | produce msg rest =>
      have hr := drainStep_produce_len buf msg rest hs
      show (if jsonValid msg = true then msg :: (drainLoop f' rest).1
          else (drainLoop f' rest).1, (drainLoop f' rest).2) =
        (if jsonValid msg = true then msg :: (drainLoop buf.length rest).1
          else (drainLoop buf.length rest).1, (drainLoop buf.length rest).2)
      rw [ih f' (by omega) rest (by omega), ih buf.length (by omega) rest hr]

theorem drainLoop_eq_decode (f : Nat) (buf : List Nat) (h : buf.length < f) :
    drainLoop f buf = lspDecode buf := by
  rw [drainLoop_fuel f buf h]; rfl

theorem lspDecode_skip (a rest : List Nat) (h13 : ∀ x ∈ a, x ≠ 13)
    (hcl : matchContentLength a = none) :
    lspDecode (a ++ 13 :: 10 :: 13 :: 10 :: rest) = lspDecode rest := by
  have hlen : rest.length < (a ++ 13 :: 10 :: 13 :: 10 :: rest).length := by
    simp only [List.length_append, List.length_cons]
    omega
  show drainLoop ((a ++ 13 :: 10 :: 13 :: 10 :: rest).length + 1) _ = _
  simp only [drainLoop, drainStep_skip a rest h13 hcl]
  exact drainLoop_eq_decode _ rest hlen

theorem drainLoop_succ (f : Nat) (buf : List Nat) :
    drainLoop (f + 1) buf =
      match drainStep buf with
      | StepRes.stuck => ([], buf)
      | StepRes.skipHeader rest => drainLoop f rest
      | StepRes.produce msg rest =>
        (if jsonValid msg then msg :: (drainLoop f rest).1 else (drainLoop f rest).1,
          (drainLoop f rest).2) := rfl

theorem lspDecode_frame (body rest : List Nat) :
    lspDecode (goodHdr body.length ++ body ++ rest) =
      (if jsonValid body then body :: (lspDecode rest).1 else (lspDecode rest).1,
        (lspDecode rest).2) := by
  have hlen : rest.length < (goodHdr body.length ++ body ++ rest).length := by
    have h16 : clLit.length = 16 := by decide
    simp only [List.length_append, goodHdr, h16, crlf4, List.length_cons, List.length_nil]
    omega
  rw [lspDecode, drainLoop_succ, drainStep_frame body rest]
  show (if jsonValid body = true then
        body :: (drainLoop (goodHdr body.length ++ body ++ rest).length rest).1
      else (drainLoop (goodHdr body.length ++ body ++ rest).length rest).1,
    (drainLoop (goodHdr body.length ++ body ++ rest).length rest).2) = _
  rw [drainLoop_eq_decode _ rest hlen]

theorem lspDecode_nil : lspDecode [] = ([], []) := by decide

/-- Claim C1: the claim states that encoding any message (header
`Content-Length: N` with `N` the UTF-8 byte length) and feeding the frame
to the decoder yields the original message back, including for multi-byte
UTF-8 bodies.  The code evaluated at the 9-character / 10-byte message
`{"x":"é"}` refutes this: the decoder compares the byte count 10 against
JavaScript string (code-unit) positions, so after receiving the complete
32-byte frame it emits nothing and keeps the whole frame buffered
forever. -/
theorem c1_roundtrip_fails_on_multibyte :
    feedStream [encodeFrameBytes msgE] = ([], encodeFrameStr msgE) ∧
      (feedStream [encodeFrameBytes msgE]).1 ≠ [msgE] := by decide

/-- Claim C2: the claim states that decoding is invariant under splitting
the byte stream at arbitrary byte offsets.  The code evaluated on the
frame of `{"x":"é"}` split at byte offset 29 (inside the two-byte
character) refutes this: fed in two chunks the decoder emits one
corrupted message `{"x":"��"}`, while fed as a single chunk it
emits nothing. -/
theorem c2_chunking_changes_output :
    wireE.take 29 ++ wireE.drop 29 = wireE ∧
      (feedStream [wireE.take 29, wireE.drop 29]).1 =
        [[123, 34, 120, 34, 58, 34, 65533, 65533, 34, 125]] ∧
      (feedStream [wireE]).1 = [] ∧
      (feedStream [wireE.take 29, wireE.drop 29]).1 ≠ (feedStream [wireE]).1 := by decide

/-- Claim C6: protocol errors are per-message recoverable.  A complete
header block without a `Content-Length` field is discarded up to and
including its terminator, a body that fails JSON parsing is dropped, and
in both cases decoding continues: a following well-formed frame is still
emitted and the buffer is fully drained. -/
theorem c6_protocol_recovery (hb bad good : List Nat)
    (h13 : ∀ x ∈ hb, x ≠ 13)
    (hcl : matchContentLength hb = none)
    (hbad : jsonValid bad = false)
    (hgood : jsonValid good = true) :
    lspDecode (hb ++ crlf4 ++ uFrame bad ++ uFrame good) = ([good], []) := by
  have e1 : hb ++ crlf4 ++ uFrame bad ++ uFrame good =
      hb ++ 13 :: 10 :: 13 :: 10 :: (uFrame bad ++ uFrame good) := by
    simp [crlf4]
  rw [e1, lspDecode_skip hb (uFrame bad ++ uFrame good) h13 hcl]
  rw [show uFrame bad ++ uFrame good = goodHdr bad.length ++ bad ++ uFrame good from rfl]
  rw [lspDecode_frame bad (uFrame good), hbad, if_neg Bool.false_ne_true]
  rw [show uFrame good = goodHdr good.length ++ good ++ ([] : List Nat) by simp [uFrame]]
  rw [lspDecode_frame good [], hgood, if_pos rfl, lspDecode_nil]

/-- Witness for C6: the header block `X: y`, the invalid body `nope` and
the valid body `{}`. -/
theorem c6_protocol_recovery_witness :
    lspDecode ([88, 58, 32, 121] ++ crlf4 ++ uFrame [110, 111, 112, 101] ++ uFrame [123, 125]) =
      ([[123, 125]], []) :=
  c6_protocol_recovery [88, 58, 32, 121] [110, 111, 112, 101] [123, 125]
    (by decide) (by decide) (by decide) (by decide)


/-! ## Client lemmas: the pending map as an association list -/

theorem lookup_of_mem_keys {β : Type} (i : Nat) (l : List (Nat × β))
    (h : i ∈ l.map Prod.fst) : ∃ v, List.lookup i l = some v := by
  induction l with
  | nil => simp at h
  | cons p l ih =>
    obtain ⟨k, v⟩ := p
    simp only [List.map_cons, List.mem_cons] at h
    by_cases hk : i = k
    · subst hk
      exact ⟨v, by simp [List.lookup_cons]⟩
    · have hbe : (i == k) = false := beq_eq_false_iff_ne.mpr hk
      rcases h with h | h
      · exact absurd h hk
      · obtain ⟨w, hw⟩ := ih h
        exact ⟨w, by simp [List.lookup_cons, hbe, hw]⟩

theorem lookup_some_key {β : Type} : ∀ (l : List (Nat × β)) (i : Nat) (v : β),
    List.lookup i l = some v → i ∈ l.map Prod.fst := by
  intro l
  induction l with
  | nil => intro i v h; simp [List.lookup] at h
  | cons p l ih =>
    intro i v h
    obtain ⟨k, w⟩ := p
    rw [List.lookup_cons] at h
    cases hbe : (i == k) with
    | true =>
      have : i = k := beq_iff_eq.mp hbe
      subst this
      simp
    | false =>
      simp only [hbe] at h
      simp [ih i v h]

theorem lookup_eq_of_nodup {β : Type} : ∀ (l : List (Nat × β)) (i : Nat) (v : β),
    (l.map Prod.fst).Nodup → (i, v) ∈ l → List.lookup i l = some v := by
  intro l
  induction l with
  | nil => intro i v _ h; simp at h
  | cons p l ih =>
    intro i v hnd hmem
    obtain ⟨k, w⟩ := p
    simp only [List.map_cons, List.nodup_cons] at hnd
    rcases List.mem_cons.mp hmem with heq | hmem'
    · injection heq with h1 h2
      subst h1; subst h2
      simp [List.lookup_cons]
    · by_cases hk : i = k
      · subst hk
        exact absurd (List.mem_map.mpr ⟨(i, v), hmem', rfl⟩) hnd.1
      · have hbe : (i == k) = false := beq_eq_false_iff_ne.mpr hk
        simp [List.lookup_cons, hbe, ih i v hnd.2 hmem']

theorem lookup_filter_self {β : Type} (i : Nat) (l : List (Nat × β)) :
    List.lookup i (l.filter (fun p => p.1 != i)) = none := by
  induction l with
  | nil => rfl
  | cons p l ih =>
    obtain ⟨k, w⟩ := p
    by_cases hk : k = i
    · subst hk
      have hb : ((k, w).1 != k) = false := by simp
      simp [List.filter_cons, hb, ih]
    · have hbe : (i == k) = false := beq_eq_false_iff_ne.mpr (fun he => hk he.symm)
      have hb : ((k, w).1 != i) = true := by
        simp [bne, beq_eq_false_iff_ne.mpr hk]
      simp [List.filter_cons, hb, List.lookup_cons, hbe, ih]

theorem keys_filter_of_ne {β : Type} (i j : Nat) (l : List (Nat × β))
    (hj : j ∈ l.map Prod.fst) (hne : j ≠ i) :
    j ∈ (l.filter (fun p => p.1 != i)).map Prod.fst := by
  rcases List.mem_map.mp hj with ⟨p, hp, rfl⟩
  refine List.mem_map.mpr ⟨p, List.mem_filter.mpr ⟨hp, ?_⟩, rfl⟩
  simp [bne, beq_eq_false_iff_ne.mpr hne]

theorem keys_filter_sub {β : Type} (i j : Nat) (l : List (Nat × β))
    (h : j ∈ (l.filter (fun p => p.1 != i)).map Prod.fst) :
    j ∈ l.map Prod.fst ∧ j ≠ i := by
  rcases List.mem_map.mp h with ⟨p, hp, rfl⟩
  have hm := List.mem_filter.mp hp
  exact ⟨List.mem_map.mpr ⟨p, hm.1, rfl⟩, bne_iff_ne.mp hm.2⟩

theorem filter_key_nil {β : Type} (i : Nat) (l : List (Nat × β))
    (h : i ∉ l.map Prod.fst) : l.filter (fun q => q.1 == i) = [] := by
  induction l with
  | nil => rfl
  | cons p l ih =>
    obtain ⟨k, w⟩ := p
    simp only [List.map_cons, List.mem_cons, not_or] at h
    have hbe : (k == i) = false := beq_eq_false_iff_ne.mpr (fun he => h.1 he.symm)
    simp [List.filter_cons, hbe, ih h.2]

theorem nodup_keys_append_fresh {β : Type} (l : List (Nat × β)) (x : Nat × β)
    (hnd : (l.map Prod.fst).Nodup) (hfresh : x.1 ∉ l.map Prod.fst) :
    ((l ++ [x]).map Prod.fst).Nodup := by
  rw [List.map_append, List.nodup_append]
  refine ⟨hnd, by simp, ?_⟩
  intro a ha hb
  simp only [List.map_cons, List.map_nil, List.mem_singleton] at hb
  subst hb
  exact hfresh ha

theorem settled_filter_append (l : List (Nat × Settle)) (i : Nat) (x : Settle) :
    ((l ++ [(i, x)]).filter (fun q => q.1 == i)).map Prod.snd =
      ((l.filter (fun q => q.1 == i)).map Prod.snd) ++ [x] := by
  rw [List.filter_append, List.map_append]
  simp [List.filter_cons]

theorem settled_filter_append_ne (l : List (Nat × Settle)) (i j : Nat) (x : Settle)
    (h : j ≠ i) :
    ((l ++ [(j, x)]).filter (fun q => q.1 == i)).map Prod.snd =
      (l.filter (fun q => q.1 == i)).map Prod.snd := by
  rw [List.filter_append, List.map_append]
  simp [List.filter_cons, beq_eq_false_iff_ne.mpr h]

/-! ## Client lemmas: characterizations of the operations -/

theorem sendRequest_closed (st : Client) (m : String) (h : st.wsConn = false) :
    sendRequest st m = (st, SendRes.rejectedWith "WebSocket not connected") := by
  unfold sendRequest
  rw [if_pos h]

theorem sendRequest_open (st : Client) (m : String) (h : st.wsConn = true) :
    sendRequest st m =
      ({ st with
          messageId := st.messageId + 1
          pending := st.pending ++ [(st.messageId + 1, m)]
          timers := st.timers ++ [st.messageId + 1]
          sent := st.sent ++ [OutMsg.request (st.messageId + 1) m]
          allocated := st.allocated ++ [st.messageId + 1] },
        SendRes.pendingId (st.messageId + 1)) := by
  unfold sendRequest
  rw [if_neg (show ¬ st.wsConn = false by simp [h])]

theorem sendNotification_closed (st : Client) (m : String) (h : st.wsConn = false) :
    sendNotification st m = st := by
  unfold sendNotification
  rw [if_pos h]

theorem sendNotification_open (st : Client) (m : String) (h : st.wsConn = true) :
    sendNotification st m = { st with sent := st.sent ++ [OutMsg.notification m] } := by
  unfold sendNotification
  rw [if_neg (show ¬ st.wsConn = false by simp [h])]

theorem handleMessage_noid (st : Client) (m : InMsg) (h : m.id = none) :
    handleMessage st m = st := by
  unfold handleMessage
  rw [h]

theorem handleMessage_unpend (st : Client) (i : Nat) (m : InMsg) (hid : m.id = some i)
    (hlu : st.pending.lookup i = none) : handleMessage st m = st := by
  unfold handleMessage
  rw [hid]
  simp only [hlu]

theorem handleMessage_hit (st : Client) (i : Nat) (v : String) (m : InMsg)
    (hid : m.id = some i) (hlu : st.pending.lookup i = some v) :
    handleMessage st m =
      { st with
          pending := st.pending.filter (fun p => p.1 != i)
          timers := st.timers.filter (fun t => t != i)
          settled := st.settled ++ [(i, respOutcome m)] } := by
  unfold handleMessage
  rw [hid]
  simp only [hlu]

theorem fireTimeout_hit (st : Client) (i : Nat) (v : String)
    (hlu : st.pending.lookup i = some v) :
    fireTimeout st i =
      { st with
          pending := st.pending.filter (fun p => p.1 != i)
          timers := st.timers.filter (fun t => t != i)
          settled := st.settled ++ [(i, Settle.rejected (timeoutMsg v i))] } := by
  unfold fireTimeout
  simp only [hlu]

theorem fireTimeout_miss (st : Client) (i : Nat)
    (hlu : st.pending.lookup i = none) :
    fireTimeout st i = { st with timers := st.timers.filter (fun t => t != i) } := by
  unfold fireTimeout
  simp only [hlu]

theorem handleMessage_keeps (st : Client) (m : InMsg) :
    (handleMessage st m).sent = st.sent ∧ (handleMessage st m).wsConn = st.wsConn ∧
      (handleMessage st m).messageId = st.messageId := by
  obtain ⟨mid, mmeth, merr, mres⟩ := m
  cases mid with
  | none =>
    rw [handleMessage_noid st _ rfl]
    exact ⟨rfl, rfl, rfl⟩
  | some i =>
    cases hlu : st.pending.lookup i with
    | none =>
      rw [handleMessage_unpend st i _ rfl hlu]
      exact ⟨rfl, rfl, rfl⟩
    | some v =>
      rw [handleMessage_hit st i v _ rfl hlu]
      exact ⟨rfl, rfl, rfl⟩

/-! ## Client lemmas: invariant preservation -/

theorem inv_sendRequest (st : Client) (m : String) (h : ClientInv st) :
    ClientInv (sendRequest st m).1 := by
  cases hw : st.wsConn with
  | false =>
    rw [sendRequest_closed st m hw]
    exact h
  | true =>
    rw [sendRequest_open st m hw]
    have hfreshP : st.messageId + 1 ∉ st.pending.map Prod.fst := by
      intro hmem
      rcases List.mem_map.mp hmem with ⟨p, hp, hfst⟩
      have := (h.pendLe p hp).1
      omega
    have hfreshS : st.messageId + 1 ∉ st.settled.map Prod.fst := by
      intro hmem
      rcases List.mem_map.mp hmem with ⟨q, hq, hfst⟩
      have := h.settLe q hq
      omega
    refine ⟨?_, ?_, ?_, ?_, ?_⟩
    · show (List.map Prod.fst (st.pending ++ [(st.messageId + 1, m)])).Nodup
      exact nodup_keys_append_fresh st.pending (st.messageId + 1, m) h.pendNodup hfreshP
    · intro j hj
      have hj' : j ∈ (st.pending ++ [(st.messageId + 1, m)]).map Prod.fst := hj
      show j ∉ st.settled.map Prod.fst
      rw [List.map_append] at hj'
      rcases List.mem_append.mp hj' with hj2 | hj2
      · exact h.disjoint j hj2
      · simp only [List.map_cons, List.map_nil, List.mem_singleton] at hj2
        subst hj2
        exact hfreshS
    · intro p hp
      have hp' : p ∈ st.pending ++ [(st.messageId + 1, m)] := hp
      show p.1 ≤ st.messageId + 1 ∧ 0 < p.1
      rcases List.mem_append.mp hp' with hp2 | hp2
      · have := h.pendLe p hp2
        omega
      · simp only [List.mem_singleton] at hp2
        subst hp2
        show st.messageId + 1 ≤ st.messageId + 1 ∧ 0 < st.messageId + 1
        omega
    · intro q hq
      have hq' : q ∈ st.settled := hq
      show q.1 ≤ st.messageId + 1
      have := h.settLe q hq'
      omega
    · show st.allocated ++ [st.messageId + 1] = List.range' 1 (st.messageId + 1)
      rw [h.alloc, List.range'_concat]
      have he : 1 + 1 * st.messageId = st.messageId + 1 := by omega
      rw [he]

theorem inv_handleMessage (st : Client) (m : InMsg) (h : ClientInv st) :
    ClientInv (handleMessage st m) := by
  cases hmid : m.id with
  | none =>
    rw [handleMessage_noid st m hmid]
    exact h
  | some i =>
    cases hlu : st.pending.lookup i with
    | none =>
      rw [handleMessage_unpend st i m hmid hlu]
      exact h
    | some v =>
      rw [handleMessage_hit st i v m hmid hlu]
      have hikey : i ∈ st.pending.map Prod.fst := lookup_some_key st.pending i v hlu
      refine ⟨?_, ?_, ?_, ?_, ?_⟩
      · show (List.map Prod.fst (st.pending.filter (fun p => p.1 != i))).Nodup
        exact List.Nodup.sublist
          (List.Sublist.map Prod.fst (List.filter_sublist st.pending)) h.pendNodup
      · intro j hj
        have hj' : j ∈ (st.pending.filter (fun p => p.1 != i)).map Prod.fst := hj
        have hsub := keys_filter_sub i j st.pending hj'
        show j ∉ (st.settled ++ [(i, respOutcome m)]).map Prod.fst
        rw [List.map_append]
        intro hmem
        rcases List.mem_append.mp hmem with hm | hm
        · exact h.disjoint j hsub.1 hm
        · simp only [List.map_cons, List.map_nil, List.mem_singleton] at hm
          exact hsub.2 hm
      · intro p hp
        have hp' : p ∈ st.pending.filter (fun q => q.1 != i) := hp
        show p.1 ≤ st.messageId ∧ 0 < p.1
        exact h.pendLe p (List.mem_filter.mp hp').1
      · intro q hq
        have hq' : q ∈ st.settled ++ [(i, respOutcome m)] := hq
        show q.1 ≤ st.messageId
        rcases List.mem_append.mp hq' with hq2 | hq2
        · exact h.settLe q hq2
        · simp only [List.mem_singleton] at hq2
          subst hq2
          show i ≤ st.messageId
          rcases List.mem_map.mp hikey with ⟨p, hp, hfst⟩
          have := (h.pendLe p hp).1
          omega
      · show st.allocated = List.range' 1 st.messageId
        exact h.alloc

theorem inv_fireTimeout (st : Client) (i : Nat) (h : ClientInv st) :
    ClientInv (fireTimeout st i) := by
  cases hlu : st.pending.lookup i with
  | none =>
    rw [fireTimeout_miss st i hlu]
    exact ⟨h.pendNodup, h.disjoint, h.pendLe, h.settLe, h.alloc⟩
  | some v =>
    rw [fireTimeout_hit st i v hlu]
    have hikey : i ∈ st.pending.map Prod.fst := lookup_some_key st.pending i v hlu
    refine ⟨?_, ?_, ?_, ?_, ?_⟩
    · show (List.map Prod.fst (st.pending.filter (fun p => p.1 != i))).Nodup
      exact List.Nodup.sublist
        (List.Sublist.map Prod.fst (List.filter_sublist st.pending)) h.pendNodup
    · intro j hj
      have hj' : j ∈ (st.pending.filter (fun p => p.1 != i)).map Prod.fst := hj
      have hsub := keys_filter_sub i j st.pending hj'
      show j ∉ (st.settled ++ [(i, Settle.rejected (timeoutMsg v i))]).map Prod.fst
      rw [List.map_append]
      intro hmem
      rcases List.mem_append.mp hmem with hm | hm
      · exact h.disjoint j hsub.1 hm
      · simp only [List.map_cons, List.map_nil, List.mem_singleton] at hm
        exact hsub.2 hm
    · intro p hp
      have hp' : p ∈ st.pending.filter (fun p => p.1 != i) := hp
      show p.1 ≤ st.messageId ∧ 0 < p.1
      exact h.pendLe p (List.mem_filter.mp hp').1
    · intro q hq
      have hq' : q ∈ st.settled ++ [(i, Settle.rejected (timeoutMsg v i))] := hq
      show q.1 ≤ st.messageId
      rcases List.mem_append.mp hq' with hq2 | hq2
      · exact h.settLe q hq2
      · simp only [List.mem_singleton] at hq2
        subst hq2
        show i ≤ st.messageId
        rcases List.mem_map.mp hikey with ⟨p, hp, hfst⟩
        have := (h.pendLe p hp).1
        omega
    · show st.allocated = List.range' 1 st.messageId
      exact h.alloc

theorem inv_disconnect (st : Client) (h : ClientInv st) : ClientInv (disconnect st) :=
  ⟨by simp [disconnect], by simp [disconnect], by simp [disconnect], h.settLe, h.alloc⟩

theorem inv_onCloseEv (st : Client) (h : ClientInv st) : ClientInv (onCloseEv st) :=
  ⟨h.pendNodup, h.disjoint, h.pendLe, h.settLe, h.alloc⟩

theorem inv_sendNotification (st : Client) (m : String) (h : ClientInv st) :
    ClientInv (sendNotification st m) := by
  cases hw : st.wsConn with
  | false =>
    rw [sendNotification_closed st m hw]
    exact h
  | true =>
    rw [sendNotification_open st m hw]
    exact ⟨h.pendNodup, h.disjoint, h.pendLe, h.settLe, h.alloc⟩

theorem inv_initHandshake (st : Client) (res : String) (h : ClientInv st) :
    ClientInv (initHandshake st res) := by
  unfold initHandshake
  by_cases hi : st.isInit = true
  · rw [if_pos hi]
    exact h
  · rw [if_neg hi]
    have h1 := inv_sendRequest st "initialize" h
    cases hsr : (sendRequest st "initialize").2 with
    | rejectedWith s =>
      simp only [hsr]
      exact h1
    | pendingId i =>
      simp only [hsr]
      have h2 := inv_handleMessage (sendRequest st "initialize").1
        { id := some i, method := none, error := none, result := res } h1
      have h3 := inv_sendNotification _ "initialized" h2
      exact ⟨h3.pendNodup, h3.disjoint, h3.pendLe, h3.settLe, h3.alloc⟩

theorem inv_step (st : Client) (ev : Ev) (h : ClientInv st) : ClientInv (step st ev) := by
  cases ev with
  | sockOpen => exact ⟨h.pendNodup, h.disjoint, h.pendLe, h.settLe, h.alloc⟩
  | sockClose => exact inv_onCloseEv st h
  | disc => exact inv_disconnect st h
  | send m => exact inv_sendRequest st m h
  | notify m => exact inv_sendNotification st m h
  | recv m => exact inv_handleMessage st m h
  | fire i => exact inv_fireTimeout st i h
  | handshake r => exact inv_initHandshake st r h

theorem inv_initialClient : ClientInv initialClient :=
  ⟨by decide, by decide, by decide, by decide, by decide⟩

theorem inv_foldl : ∀ (l : List Ev) (st : Client), ClientInv st →
    ClientInv (l.foldl step st) := by
  intro l
  induction l with
  | nil => intro st h; exact h
  | cons e l ih =>
    intro st h
    exact ih (step st e) (inv_step st e h)

theorem inv_run (evs : List Ev) : ClientInv (runEvents evs) :=
  inv_foldl evs initialClient inv_initialClient

/-! ## Correlator frame lemmas -/

theorem settledFor_handleMessage_ne (st : Client) (r : InMsg) (i : Nat)
    (h : r.id ≠ some i) :
    settledFor (handleMessage st r) i = settledFor st i := by
  cases hmid : r.id with
  | none => rw [handleMessage_noid st r hmid]
  | some j =>
    have hji : j ≠ i := fun he => h (by rw [hmid, he])
    cases hlu : st.pending.lookup j with
    | none => rw [handleMessage_unpend st j r hmid hlu]
    | some v =>
      rw [handleMessage_hit st j v r hmid hlu]
      show ((st.settled ++ [(j, respOutcome r)]).filter (fun q => q.1 == i)).map Prod.snd =
        settledFor st i
      rw [settled_filter_append_ne st.settled i j (respOutcome r) hji]
      rfl

theorem settledFor_foldl_frame : ∀ (rs : List InMsg) (st : Client) (i : Nat),
    (∀ r ∈ rs, r.id ≠ some i) →
    settledFor (rs.foldl handleMessage st) i = settledFor st i := by
  intro rs
  induction rs with
  | nil => intro st i _; rfl
  | cons r rs ih =>
    intro st i hno
    rw [List.foldl_cons]
    rw [ih (handleMessage st r) i (fun x hx => hno x (List.mem_cons_of_mem r hx))]
    exact settledFor_handleMessage_ne st r i (hno r (List.mem_cons_self r rs))

theorem settledFor_handleMessage_hit (st : Client) (hInv : ClientInv st) (r : InMsg)
    (i : Nat) (hid : r.id = some i) (hkey : i ∈ st.pending.map Prod.fst) :
    settledFor (handleMessage st r) i = [respOutcome r] := by
  obtain ⟨v, hlu⟩ := lookup_of_mem_keys i st.pending hkey
  rw [handleMessage_hit st i v r hid hlu]
  show ((st.settled ++ [(i, respOutcome r)]).filter (fun q => q.1 == i)).map Prod.snd =
    [respOutcome r]
  rw [settled_filter_append, filter_key_nil i st.settled (hInv.disjoint i hkey)]
  rfl

theorem keys_handleMessage (st : Client) (r : InMsg) (j : Nat)
    (h : j ∈ st.pending.map Prod.fst) (hne : r.id ≠ some j) :
    j ∈ (handleMessage st r).pending.map Prod.fst := by
  cases hmid : r.id with
  | none => rw [handleMessage_noid st r hmid]; exact h
  | some i =>
    have hji : j ≠ i := fun he => hne (by rw [hmid, he])
    cases hlu : st.pending.lookup i with
    | none => rw [handleMessage_unpend st i r hmid hlu]; exact h
    | some v =>
      rw [handleMessage_hit st i v r hmid hlu]
      show j ∈ (st.pending.filter (fun p => p.1 != i)).map Prod.fst
      exact keys_filter_of_ne i j st.pending h hji

/-! ## Claim theorems: the request correlator and session lifecycle -/

/-- Claim C3 counterexample: the claim states that reaching a terminal
state rejects every outstanding PendingRequest with a connection-loss
error.  In the code, after connecting and sending one request (id 1 is
pending), `disconnect()` clears the pending map without settling
anything, and the request's timer later finds the id absent and also
settles nothing: the settlement log stays empty, so the outstanding
continuation is never rejected. -/
theorem c3_counterexample :
    (runEvents [Ev.sockOpen, Ev.send "textDocument/hover"]).pending =
        [(1, "textDocument/hover")] ∧
      (runEvents [Ev.sockOpen, Ev.send "textDocument/hover", Ev.disc]).settled = [] ∧
      (runEvents [Ev.sockOpen, Ev.send "textDocument/hover", Ev.disc, Ev.fire 1]).settled =
        [] ∧
      (runEvents [Ev.sockOpen, Ev.send "textDocument/hover", Ev.disc, Ev.fire 1]).pending =
        [] := by
  decide

/-- Claim C3 (amended): reaching a terminal state does not reject any
outstanding PendingRequest.  `disconnect()` empties the pending map while
leaving the settlement log and the sent log untouched; a timer that fires
afterwards finds nothing pending and settles nothing, so the cleared
continuations stay unresolved forever.  `ws.onclose` leaves the pending
map untouched, so those requests can only ever settle through their own
timeouts. -/
theorem c3_amended_no_rejection (st : Client) :
    (disconnect st).pending = [] ∧
      (disconnect st).settled = st.settled ∧
      (disconnect st).sent = st.sent ∧
      (∀ i, (fireTimeout (disconnect st) i).settled = st.settled) ∧
      (onCloseEv st).pending = st.pending ∧
      (onCloseEv st).settled = st.settled := by
  refine ⟨rfl, rfl, rfl, ?_, rfl, rfl⟩
  intro i
  have hl : (disconnect st).pending.lookup i = none := rfl
  rw [fireTimeout_miss (disconnect st) i hl]
  rfl

/-- Claim C4: a request still pending when its 30-second timer fires is
rejected exactly once, with a timeout error naming its method and id; a
response bearing that id arriving afterwards is silently discarded — it
changes nothing in the client state. -/
theorem c4_timeout_exactly_once (st : Client) (hInv : ClientInv st) (i : Nat) (m : String)
    (hp : (i, m) ∈ st.pending) :
    settledFor (fireTimeout st i) i = [Settle.rejected (timeoutMsg m i)] ∧
      ∀ msg : InMsg, msg.id = some i →
        handleMessage (fireTimeout st i) msg = fireTimeout st i := by
  have hkey : i ∈ st.pending.map Prod.fst := List.mem_map.mpr ⟨(i, m), hp, rfl⟩
  have hlu : st.pending.lookup i = some m :=
    lookup_eq_of_nodup st.pending i m hInv.pendNodup hp
  have hset0 : (st.settled.filter (fun q => q.1 == i)).map Prod.snd = [] := by
    rw [filter_key_nil i st.settled (hInv.disjoint i hkey)]
    rfl
  constructor
  · rw [fireTimeout_hit st i m hlu]
    show ((st.settled ++ [(i, Settle.rejected (timeoutMsg m i))]).filter
      (fun q => q.1 == i)).map Prod.snd = [Settle.rejected (timeoutMsg m i)]
    rw [settled_filter_append, hset0]
    rfl
  · intro msg hid
    rw [fireTimeout_hit st i m hlu]
    exact handleMessage_unpend _ i msg hid (lookup_filter_self i st.pending)

/-- Witness for C4 at a concrete session: connect, send one request,
let its timer fire. -/
theorem c4_timeout_exactly_once_witness :
    settledFor (fireTimeout (runEvents [Ev.sockOpen, Ev.send "textDocument/hover"]) 1) 1 =
      [Settle.rejected (timeoutMsg "textDocument/hover" 1)] :=
  (c4_timeout_exactly_once (runEvents [Ev.sockOpen, Ev.send "textDocument/hover"])
    ⟨by decide, by decide, by decide, by decide, by decide⟩ 1 "textDocument/hover"
    (by decide)).1

/-- Claim C5: with any set of responses whose ids are pairwise distinct
and all pending, delivered in any order, every response settles exactly
the request carrying its own id — resolving with its result or rejecting
with its error message — and a pending request that gets no response is
settled by none of the others. -/
theorem c5_correlation : ∀ (rs : List InMsg) (st : Client), ClientInv st →
    (∀ r ∈ rs, ∃ i, r.id = some i ∧ i ∈ st.pending.map Prod.fst) →
    (rs.map InMsg.id).Nodup →
    (∀ r ∈ rs, ∀ i, r.id = some i →
        settledFor (rs.foldl handleMessage st) i = [respOutcome r]) ∧
      (∀ i ∈ st.pending.map Prod.fst, (∀ r ∈ rs, r.id ≠ some i) →
        settledFor (rs.foldl handleMessage st) i = []) := by
  intro rs
  induction rs with
  | nil =>
    intro st hInv _ _
    refine ⟨by simp, ?_⟩
    intro i hkey _
    show settledFor st i = []
    unfold settledFor
    rw [filter_key_nil i st.settled (hInv.disjoint i hkey)]
    rfl
  | cons r0 rs ih =>
    intro st hInv hids hnodup
    obtain ⟨i0, hid0, hkey0⟩ := hids r0 (List.mem_cons_self r0 rs)
    have hnot0 : r0.id ∉ rs.map InMsg.id := by
      simp only [List.map_cons, List.nodup_cons] at hnodup
      exact hnodup.1
    have hnodup' : (rs.map InMsg.id).Nodup := by
      simp only [List.map_cons, List.nodup_cons] at hnodup
      exact hnodup.2
    have hne0 : ∀ r ∈ rs, r.id ≠ some i0 := by
      intro r hr hcon
      exact hnot0 (List.mem_map.mpr ⟨r, hr, by rw [hcon, hid0]⟩)
    have hInv1 := inv_handleMessage st r0 hInv
    have hids1 : ∀ r ∈ rs, ∃ i, r.id = some i ∧
        i ∈ (handleMessage st r0).pending.map Prod.fst := by
      intro r hr
      obtain ⟨i, hi, hk⟩ := hids r (List.mem_cons_of_mem r0 hr)
      refine ⟨i, hi, keys_handleMessage st r0 i hk ?_⟩
      intro hcon
      exact hnot0 (List.mem_map.mpr ⟨r, hr, by rw [hi, hcon]⟩)
    obtain ⟨ihA, ihB⟩ := ih (handleMessage st r0) hInv1 hids1 hnodup'
    constructor
    · intro r hr i hid
      rcases List.mem_cons.mp hr with heq | hr'
      · subst heq
        have hii : i = i0 := by
          rw [hid] at hid0
          exact Option.some.inj hid0
        rw [List.foldl_cons, hii]
        rw [settledFor_foldl_frame rs (handleMessage st r) i0 hne0]
        rw [hii] at hid
        exact settledFor_handleMessage_hit st hInv r i0 hid hkey0
      · rw [List.foldl_cons]
        exact ihA r hr' i hid
    · intro i hkey hno
      rw [List.foldl_cons]
      exact ihB i
        (keys_handleMessage st r0 i hkey (hno r0 (List.mem_cons_self r0 rs)))
        (fun r hr => hno r (List.mem_cons_of_mem r0 hr))

/-- Witness for C5: two outstanding requests (ids 1 and 2), responses
delivered in reverse order; the response carrying id 2 resolves exactly
request 2. -/
theorem c5_correlation_witness :
    settledFor ([(⟨some 2, none, none, "r2"⟩ : InMsg),
        ⟨some 1, none, some "boom", "x"⟩].foldl handleMessage
      (runEvents [Ev.sockOpen, Ev.send "a", Ev.send "b"])) 2 =
      [Settle.resolved "r2"] := by
  have h := c5_correlation
    [(⟨some 2, none, none, "r2"⟩ : InMsg), ⟨some 1, none, some "boom", "x"⟩]
    (runEvents [Ev.sockOpen, Ev.send "a", Ev.send "b"])
    ⟨by decide, by decide, by decide, by decide, by decide⟩
    (by
      intro r hr
      rcases List.mem_cons.mp hr with heq | hr'
      · subst heq
        exact ⟨2, rfl, by decide⟩
      · rcases List.mem_cons.mp hr' with heq | hr''
        · subst heq
          exact ⟨1, rfl, by decide⟩
        · cases hr'')
    (by decide)
  exact h.1 _ (List.mem_cons_self _ _) 2 rfl

/-- Claim C7: over any sequence of session events, the ids handed out by
`++messageId` are exactly `1, 2, …, messageId`: the first is 1, they are
strictly increasing, all are positive, and none repeats. -/
theorem c7_request_ids (evs : List Ev) :
    (runEvents evs).allocated = List.range' 1 (runEvents evs).messageId ∧
      (runEvents evs).allocated.Pairwise (fun a b => a < b) ∧
      (∀ i ∈ (runEvents evs).allocated, 0 < i) := by
  have h := (inv_run evs).alloc
  refine ⟨h, ?_, ?_⟩
  · rw [h]
    exact List.pairwise_lt_range' 1 (runEvents evs).messageId
  · intro i hi
    rw [h] at hi
    have := List.mem_range'_1.mp hi
    omega

/-- Claim C10: calling `sendRequest` while the socket is not open rejects
immediately with `WebSocket not connected` and leaves the whole client
state untouched: no id is allocated, nothing is stored as pending, no
timer is armed, and nothing is written to the socket. -/
theorem c10_sendRequest_guard (st : Client) (m : String) (h : st.wsConn = false) :
    sendRequest st m = (st, SendRes.rejectedWith "WebSocket not connected") :=
  sendRequest_closed st m h

/-- Witness for C10: the freshly constructed client is not connected. -/
theorem c10_sendRequest_guard_witness :
    sendRequest initialClient "textDocument/hover" =
      (initialClient, SendRes.rejectedWith "WebSocket not connected") :=
  c10_sendRequest_guard initialClient "textDocument/hover" rfl

/-- Claim C8: the `initialize()` handshake.  On a connected,
not-yet-initialized session the completing call writes exactly one
`initialize` request followed by one `initialized` notification and sets
the flag; any call made after completion — in particular a second call —
returns the state unchanged and writes nothing. -/
theorem c8_handshake_idempotent (st : Client) (res res2 : String)
    (h1 : st.isInit = false) (h2 : st.wsConn = true) :
    (initHandshake st res).sent =
        st.sent ++ [OutMsg.request (st.messageId + 1) "initialize",
          OutMsg.notification "initialized"] ∧
      (initHandshake st res).isInit = true ∧
      initHandshake (initHandshake st res) res2 = initHandshake st res ∧
      (∀ st2 : Client, st2.isInit = true → initHandshake st2 res2 = st2) := by
  have hno : ∀ st2 : Client, st2.isInit = true → initHandshake st2 res2 = st2 := by
    intro st2 hi
    unfold initHandshake
    rw [if_pos hi]
  have hsr2 : (sendRequest st "initialize").2 = SendRes.pendingId (st.messageId + 1) := by
    rw [sendRequest_open st "initialize" h2]
  have hEq : initHandshake st res =
      { sendNotification (handleMessage (sendRequest st "initialize").1
          ⟨some (st.messageId + 1), none, none, res⟩) "initialized" with isInit := true } := by
    unfold initHandshake
    rw [if_neg (by simp [h1])]
    simp only [hsr2]
  have hsr1sent : (sendRequest st "initialize").1.sent =
      st.sent ++ [OutMsg.request (st.messageId + 1) "initialize"] := by
    rw [sendRequest_open st "initialize" h2]
  have hsr1ws : (sendRequest st "initialize").1.wsConn = true := by
    rw [sendRequest_open st "initialize" h2]
    exact h2
  have hsent : (initHandshake st res).sent =
      st.sent ++ [OutMsg.request (st.messageId + 1) "initialize",
        OutMsg.notification "initialized"] := by
    rw [hEq]
    show (sendNotification (handleMessage (sendRequest st "initialize").1
        ⟨some (st.messageId + 1), none, none, res⟩) "initialized").sent = _
    have hws : (handleMessage (sendRequest st "initialize").1
        ⟨some (st.messageId + 1), none, none, res⟩).wsConn = true := by
      rw [(handleMessage_keeps _ _).2.1]
      exact hsr1ws
    rw [sendNotification_open _ _ hws]
    show (handleMessage (sendRequest st "initialize").1
        ⟨some (st.messageId + 1), none, none, res⟩).sent ++
      [OutMsg.notification "initialized"] = _
    rw [(handleMessage_keeps _ _).1, hsr1sent]
    simp
  have hinit2 : (initHandshake st res).isInit = true := by
    rw [hEq]
  exact ⟨hsent, hinit2, hno (initHandshake st res) hinit2, hno⟩

/-- Witness for C8: a freshly connected session performs the handshake
once; the second call is the identity. -/
theorem c8_handshake_idempotent_witness :
    (initHandshake (runEvents [Ev.sockOpen]) "caps").sent =
        (runEvents [Ev.sockOpen]).sent ++
          [OutMsg.request ((runEvents [Ev.sockOpen]).messageId + 1) "initialize",
            OutMsg.notification "initialized"] ∧
      (initHandshake (runEvents [Ev.sockOpen]) "caps").isInit = true ∧
      initHandshake (initHandshake (runEvents [Ev.sockOpen]) "caps") "caps2" =
        initHandshake (runEvents [Ev.sockOpen]) "caps" := by
  have h := c8_handshake_idempotent (runEvents [Ev.sockOpen]) "caps" "caps2"
    (by decide) (by decide)
  exact ⟨h.1, h.2.1, h.2.2.1⟩

/-! ## Diagnostics aggregation lemmas -/

theorem toErrorItem_uri (u : String) (d : Diagnostic) : (toErrorItem u d).uri = u := rfl

theorem publish_filter_eq : ∀ (ps : List (String × List Diagnostic))
    (st : List ErrorItem) (u : String),
    (ps.foldl publishStep st).filter (fun e => e.uri == u) =
      ps.foldl (fun acc p => if p.1 = u then p.2.map (toErrorItem u) else acc)
        (st.filter (fun e => e.uri == u)) := by
  intro ps
  induction ps with
  | nil => intro st u; rfl
  | cons p ps ih =>
    intro st u
    rw [List.foldl_cons, List.foldl_cons, ih (publishStep st p) u]
    congr 1
    unfold publishStep
    rw [List.filter_append]
    by_cases hu : p.1 = u
    · rw [if_pos hu]
      have hA : (st.filter (fun e => e.uri != p.1)).filter (fun e => e.uri == u) = [] := by
        rw [List.filter_filter]
        apply List.filter_eq_nil_iff.mpr
        intro e _
        subst hu
        by_cases he : e.uri = p.1
        · simp [he, bne]
        · simp [he, beq_eq_false_iff_ne.mpr he]
      have hB : (p.2.map (toErrorItem p.1)).filter (fun e => e.uri == u) =
          p.2.map (toErrorItem u) := by
        subst hu
        rw [List.filter_map]
        have : ∀ d, ((fun e => e.uri == p.1) ∘ toErrorItem p.1) d = true := by
          intro d
          simp [Function.comp, toErrorItem_uri]
        rw [List.filter_eq_self.mpr (fun d _ => this d)]
      rw [hA, hB]
      rfl
    · rw [if_neg hu]
      have hA : (st.filter (fun e => e.uri != p.1)).filter (fun e => e.uri == u) =
          st.filter (fun e => e.uri == u) := by
        rw [List.filter_filter]
        apply List.filter_congr
        intro e _
        have hup : ¬ u = p.1 := fun hc => hu hc.symm
        by_cases he : e.uri = u
        · have hne : e.uri ≠ p.1 := by rw [he]; exact hup
          simp [he, bne, beq_eq_false_iff_ne.mpr hne, hup]
        · simp [beq_eq_false_iff_ne.mpr he]
      have hB : (p.2.map (toErrorItem p.1)).filter (fun e => e.uri == u) = [] := by
        rw [List.filter_map]
        have hnil : List.filter ((fun e => e.uri == u) ∘ toErrorItem p.1) p.2 = [] := by
          apply List.filter_eq_nil_iff.mpr
          intro d _
          simp [Function.comp, toErrorItem_uri, hu]
        rw [hnil]
        rfl
      rw [hA, hB, List.append_nil]

theorem publish_mem_uri : ∀ (ps : List (String × List Diagnostic))
    (st : List ErrorItem) (e : ErrorItem),
    e ∈ ps.foldl publishStep st → e ∈ st ∨ ∃ p ∈ ps, e.uri = p.1 := by
  intro ps
  induction ps with
  | nil => intro st e h; exact Or.inl h
  | cons p ps ih =>
    intro st e h
    rw [List.foldl_cons] at h
    rcases ih (publishStep st p) e h with h' | ⟨q, hq, he⟩
    · unfold publishStep at h'
      rcases List.mem_append.mp h' with h2 | h2
      · exact Or.inl (List.mem_filter.mp h2).1
      · rcases List.mem_map.mp h2 with ⟨d, _, rfl⟩
        exact Or.inr ⟨p, List.mem_cons_self p ps, toErrorItem_uri p.1 d⟩
    · exact Or.inr ⟨q, List.mem_cons_of_mem p hq, he⟩

/-- Claim C9: publishing diagnostics for a URI replaces that URI's stored
set wholesale, and after any sequence of publishes for two URIs the
aggregate problems list holds exactly (up to order) the most recent set
published for each URI — nothing from superseded publishes survives. -/
theorem c9_diagnostics_replace (ps : List (String × List Diagnostic)) (A B : String)
    (hAB : A ≠ B) (hcover : ∀ p ∈ ps, p.1 = A ∨ p.1 = B) :
    (publishRun ps).filter (fun e => e.uri == A) = lastPublished A ps ∧
      (publishRun ps).filter (fun e => e.uri == B) = lastPublished B ps ∧
      (publishRun ps).Perm (lastPublished A ps ++ lastPublished B ps) := by
  have hA : (publishRun ps).filter (fun e => e.uri == A) = lastPublished A ps := by
    unfold publishRun lastPublished
    rw [publish_filter_eq ps [] A]
    rfl
  have hB : (publishRun ps).filter (fun e => e.uri == B) = lastPublished B ps := by
    unfold publishRun lastPublished
    rw [publish_filter_eq ps [] B]
    rfl
  refine ⟨hA, hB, ?_⟩
  have hperm := (List.filter_append_perm (fun e => e.uri == A) (publishRun ps)).symm
  have hneg : (publishRun ps).filter (fun e => !(e.uri == A)) =
      (publishRun ps).filter (fun e => e.uri == B) := by
    apply List.filter_congr
    intro e he
    rcases publish_mem_uri ps [] e he with h0 | ⟨p, hp, hepu⟩
    · simp at h0
    · rcases hcover p hp with h | h
      · rw [h] at hepu
        simp [hepu, beq_eq_false_iff_ne.mpr hAB]
      · rw [h] at hepu
        simp [hepu, beq_eq_false_iff_ne.mpr (Ne.symm hAB)]
  rw [hneg, hA, hB] at hperm
  exact hperm

/-- Witness for C9: URI `a` is published twice, URI `b` once, in between;
the aggregate equals the second `a` set together with the `b` set. -/
theorem c9_diagnostics_replace_witness :
    (publishRun [("a", [(⟨⟨0, 0, 0, 5⟩, 1, "e1", none⟩ : Diagnostic)]),
        ("b", [(⟨⟨1, 2, 1, 9⟩, 2, "w1", some "c7"⟩ : Diagnostic)]),
        ("a", [(⟨⟨3, 0, 3, 4⟩, 1, "e2", none⟩ : Diagnostic)])]).Perm
      (lastPublished "a" [("a", [(⟨⟨0, 0, 0, 5⟩, 1, "e1", none⟩ : Diagnostic)]),
          ("b", [(⟨⟨1, 2, 1, 9⟩, 2, "w1", some "c7"⟩ : Diagnostic)]),
          ("a", [(⟨⟨3, 0, 3, 4⟩, 1, "e2", none⟩ : Diagnostic)])] ++
        lastPublished "b" [("a", [(⟨⟨0, 0, 0, 5⟩, 1, "e1", none⟩ : Diagnostic)]),
          ("b", [(⟨⟨1, 2, 1, 9⟩, 2, "w1", some "c7"⟩ : Diagnostic)]),
          ("a", [(⟨⟨3, 0, 3, 4⟩, 1, "e2", none⟩ : Diagnostic)])]) :=
  (c9_diagnostics_replace
    [("a", [(⟨⟨0, 0, 0, 5⟩, 1, "e1", none⟩ : Diagnostic)]),
      ("b", [(⟨⟨1, 2, 1, 9⟩, 2, "w1", some "c7"⟩ : Diagnostic)]),
      ("a", [(⟨⟨3, 0, 3, 4⟩, 1, "e2", none⟩ : Diagnostic)])]
    "a" "b" (by decide) (by decide)).2.2
